import Mathlib

/-!
Shallow Lean embedding of src/ppo.py (a PyTorch PPO agent) and proofs of the
frozen claims about it.

Modelling conventions:
* Python floats are modelled as exact rationals (ℚ).
* The transcendental functions that torch computes (exp, log, sqrt) are
  bundled in a `MathOps` record and passed explicitly; theorems assume only
  the properties of the real functions that they need (e.g. `exp 0 = 1`).
* A torch tensor of floats is a shape together with flat data (`Tensor`).
* Autograd is modelled by a `requires_grad` flag on returned scalars
  (`GradVal`); `.detach()` clears the flag, mirroring lines 74 and 122.
* The convolutional feature stacks of the actor and critic (whose weights the
  claims never inspect) are carried as opaque-to-the-claims function fields of
  `ActorCritic`; the final `nn.Linear(256, action_dim)` / `nn.Linear(256, 1)`
  layers and the `nn.Softmax` head, whose output dimension the claims do
  inspect, are modelled explicitly.
* In-place mutation becomes explicit state passing: methods of class `PPO`
  take and return a `PPO` record.  A Python exception becomes an
  `Except.error` carrying the record state at the moment the exception
  propagates (Python leaves already-performed in-place mutations in place).
-/

/-- Bundle of the real-valued math functions used by torch (`torch.exp`,
`Categorical.log_prob`'s logarithm, the square root inside `torch.std`).
They are transcendental, hence modelled as parameters over ℚ. -/
structure MathOps where
  exp : ℚ → ℚ
  log : ℚ → ℚ
  sqrt : ℚ → ℚ

/-- A torch float tensor: a shape and row-major flat data. -/
structure Tensor where
  shape : List Nat
  data : List ℚ
deriving DecidableEq, Repr

/-- torch `Tensor.reshape`: succeeds iff the element counts agree, and then
only reinterprets the flat data under the new shape. -/
def Tensor.reshape (t : Tensor) (s : List Nat) : Option Tensor :=
  if s.prod = t.data.length then some ⟨s, t.data⟩ else none

/-- A scalar carrying its autograd `requires_grad` flag. -/
structure GradVal where
  val : ℚ
  requires_grad : Bool
deriving DecidableEq, Repr

/-- torch `Tensor.detach`: same value, removed from the autograd graph. -/
def GradVal.detach (v : GradVal) : GradVal :=
  ⟨v.val, false⟩

/-- Dot product of two weight/activation vectors (truncating like `zip`). -/
def dotQ (a b : List ℚ) : List ℚ :=
  List.zipWith (fun x y => x * y) a b

/-- Value of a dot product. -/
def dotSum (a b : List ℚ) : ℚ :=
  (dotQ a b).sum

/-- One `nn.Linear` layer given as a list of (row weights, bias) pairs; the
output has one entry per row. -/
def linearRows (rows : List (List ℚ × ℚ)) (x : List ℚ) : List ℚ :=
  rows.map (fun rb => dotSum rb.1 x + rb.2)

/-- `nn.Softmax(dim=-1)` with the exponential passed explicitly: normalizes
`exp` of the entries by their total.  Length-preserving. -/
def softmaxWith (e : ℚ → ℚ) (xs : List ℚ) : List ℚ :=
  let total := (xs.map e).sum
  xs.map (fun x => e x / total)

namespace Categorical

/-- Inverse-CDF walk used to model `Categorical(probs).sample()`: consume the
probability mass until the uniform draw `u` is exceeded.  The result is
always an index into `probs` when `probs` is nonempty. -/
def sampleGo : List ℚ → ℚ → Nat
  | [], _ => 0
  | [_], _ => 0
  | p :: q :: rest, u => if u < p then 0 else sampleGo (q :: rest) (u - p) + 1

/-- `Categorical(probs).sample()` driven by a uniform draw `u`. -/
def sample (probs : List ℚ) (u : ℚ) : Nat :=
  sampleGo probs u

/-- `Categorical(probs).log_prob(a)`: log of the probability of outcome `a`. -/
def logProb (M : MathOps) (probs : List ℚ) (a : Nat) : ℚ :=
  M.log (probs.getD a 0)

/-- `Categorical(probs).entropy()`. -/
def entropyOf (M : MathOps) (probs : List ℚ) : ℚ :=
  -((probs.map (fun p => p * M.log p)).sum)

end Categorical

/-- The `ActorCritic` module of src/ppo.py.  `actorFeat`/`criticFeat` are the
convolutional stacks, `nn.Flatten`, `nn.Linear(2816, 256)` and `nn.ReLU`
(their weights are data the claims never inspect, so they are carried as
abstract per-state feature maps); `actorHead` is the final
`nn.Linear(256, action_dim)` and `criticHead` the final `nn.Linear(256, 1)`. -/
structure ActorCritic where
  actorFeat : Tensor → List ℚ
  actorHead : List (List ℚ × ℚ)
  criticFeat : Tensor → List ℚ
  criticHead : List ℚ × ℚ

/-- Constructor of `ActorCritic`: `nn.Linear(256, action_dim)` creates one
weight row (and bias) per output class, so `actorHead` has exactly
`action_dim` rows; `state_dim` only enters the abstract feature stacks. -/
def mkActorCritic (_state_dim action_dim : Nat) (aF cF : Tensor → List ℚ)
    (aHead : Nat → List ℚ × ℚ) (cHead : List ℚ × ℚ) : ActorCritic :=
  { actorFeat := aF
    actorHead := (List.range action_dim).map aHead
    criticFeat := cF
    criticHead := cHead }

/-- Action probabilities `self.actor(state)`: feature stack, final linear
layer, then `nn.Softmax(dim=-1)`. -/
def actorProbs (M : MathOps) (ac : ActorCritic) (st : Tensor) : List ℚ :=
  softmaxWith M.exp (linearRows ac.actorHead (ac.actorFeat st))

/-- Critic value `self.critic(state)`. -/
def criticValue (ac : ActorCritic) (st : Tensor) : ℚ :=
  dotSum ac.criticHead.1 (ac.criticFeat st) + ac.criticHead.2

/-- `ActorCritic.act` (src/ppo.py lines 69-74): sample an action from the
categorical distribution over the actor's probabilities and return it with
the (detached) log-probability of that action.  `g` is whether gradients are
being tracked in the calling context; the returned scalar is detached either
way. -/
def ActorCritic.act (ac : ActorCritic) (M : MathOps) (g : Bool) (st : Tensor)
    (u : ℚ) : Nat × GradVal :=
  let probs := actorProbs M ac st
  let a := Categorical.sample probs u
  let lp : GradVal := ⟨Categorical.logProb M probs a, g⟩
  (a, lp.detach)

/-- `ActorCritic.evaluate` (lines 76-82): log-probability of the given
action, state value, and distribution entropy. -/
def ActorCritic.evaluate (ac : ActorCritic) (M : MathOps) (st : Tensor)
    (a : Nat) : ℚ × ℚ × ℚ :=
  let probs := actorProbs M ac st
  (Categorical.logProb M probs a, criticValue ac st, Categorical.entropyOf M probs)

/-- The `RolloutBuffer` of src/ppo.py: five parallel lists. -/
structure RolloutBuffer where
  actions : List Nat
  states : List Tensor
  logprobs : List ℚ
  rewards : List ℚ
  is_terminals : List Bool
deriving DecidableEq

/-- `RolloutBuffer.__init__` (lines 27-32): all five lists start empty. -/
def RolloutBuffer.init : RolloutBuffer :=
  ⟨[], [], [], [], []⟩

/-- `RolloutBuffer.clear` (lines 34-39): `del xs[:]` on each list. -/
def RolloutBuffer.clear (_b : RolloutBuffer) : RolloutBuffer :=
  ⟨[], [], [], [], []⟩

/-- The reverse loop of `PPO.update` (lines 126-133), verbatim: walk the
zipped (reward, is_terminal) pairs, reset the accumulator to 0 on a terminal
flag before folding in that reward, and prepend (`rewards.insert(0, ...)`)
each running value onto the output list. -/
def returnsLoop (gamma : ℚ) : List (ℚ × Bool) → ℚ → List ℚ → List ℚ
  | [], _, acc => acc
  | (r, d) :: rest, g, acc =>
    let g2 := r + gamma * (if d then 0 else g)
    returnsLoop gamma rest g2 (g2 :: acc)

/-- Monte Carlo discounted returns of `PPO.update` (lines 125-133):
`zip(reversed(rewards), reversed(is_terminals))` folded by `returnsLoop`
starting from accumulator 0 and an empty output list. -/
def computeReturns (gamma : ℚ) (rewards : List ℚ) (terminals : List Bool) : List ℚ :=
  returnsLoop gamma (rewards.reverse.zip terminals.reverse) 0 []

/-- Chronological-order characterization of the spec's return recurrence
(spec section 4.4 step 1): the return at a step is its reward plus `gamma`
times the next step's return, cut to zero across a terminal flag at the
current step.  Written from the spec's words for comparison with the source
translation `computeReturns`. -/
def computeReturnsSpec (gamma : ℚ) : List ℚ → List Bool → List ℚ
  | r :: rs, d :: ds =>
    let rest := computeReturnsSpec gamma rs ds
    (r + gamma * (if d then 0 else rest.headD 0)) :: rest
  | _, _ => []

/-- Final accumulator value of the reverse loop (not returned by the source
loop; used to reason about it). -/
def finalG (gamma : ℚ) : List (ℚ × Bool) → ℚ → ℚ
  | [], g => g
  | (r, d) :: rest, g => finalG gamma rest (r + gamma * (if d then 0 else g))

/-- Mean of a tensor (`Tensor.mean`), as exact rationals. -/
def meanQ (xs : List ℚ) : ℚ :=
  xs.sum / xs.length

/-- Standard deviation (`Tensor.std`, unbiased as in torch), with the square
root taken from `M`. -/
def stdQ (M : MathOps) (xs : List ℚ) : ℚ :=
  M.sqrt ((xs.map (fun x => (x - meanQ xs) ^ 2)).sum / ((xs.length : ℚ) - 1))

/-- Return normalization of `PPO.update` (line 137):
`(rewards - rewards.mean()) / (rewards.std() + 1e-7)`. -/
def normalizeRewards (M : MathOps) (xs : List ℚ) : List ℚ :=
  xs.map (fun x => (x - meanQ xs) / (stdQ M xs + 1 / 10000000))

/-- The `PPO` engine of src/ppo.py (lines 85-107).  `lr_actor`, `lr_critic`
and the device are out of the modelled core; the Adam optimizer's state is
represented by its observable step counter `optSteps`. -/
structure PPO where
  gamma : ℚ
  eps_clip : ℚ
  K_epochs : Nat
  buffer : RolloutBuffer
  policy : ActorCritic
  policy_old : ActorCritic
  optSteps : Nat

/-- `PPO.__init__` (lines 87-105): store the caller-supplied buffer and
hyperparameters, build the live model `policy`, build an independently
initialized `policy_old` (`pOldInit`) and immediately overwrite it with a hard
copy of `policy` via `load_state_dict(policy.state_dict())`. -/
def mkPPO (buffer : RolloutBuffer) (gamma eps_clip : ℚ) (K_epochs : Nat)
    (pInit _pOldInit : ActorCritic) : PPO :=
  { gamma := gamma
    eps_clip := eps_clip
    K_epochs := K_epochs
    buffer := buffer
    policy := pInit
    policy_old := pInit
    optSteps := 0 }

/-- `PPO.select_action` (lines 109-122): under `torch.no_grad()`, reshape the
`[frames, height, width, channels]` observation to
`[1, frames*channels, height, width]`, run `policy_old.act` on it, and return
the detached pair.  The commented-out buffer appends of the source are absent:
the engine state is returned unchanged.  `none` models the torch error raised
when the observation is not reshapeable (wrong item count) or not 4-D. -/
def PPO.select_action (e : PPO) (M : MathOps) (st : Tensor) (u : ℚ) :
    Option ((Nat × GradVal) × PPO) :=
  match st.shape with
  | [f, h, w, c] =>
    match st.reshape [1, f * c, h, w] with
    | some st2 =>
      let r := e.policy_old.act M false st2 u
      some ((r.1, r.2.detach), e)
    | none => none
  | _ => none

/-- Broadcast of two 1-D tensor lengths, as in torch: equal lengths, or one
side of length one stretched to the other.  `none` is a runtime shape error. -/
def bcast (m n : Nat) : Option Nat :=
  if m = n then some m else if m = 1 then some n else if n = 1 then some m else none

/-- Shape admissibility of one iteration of the K-epoch loop of `PPO.update`
(lines 147-170), given the lengths of the stacked states, actions, logprobs
and of the normalized returns: `log_prob` broadcasts actions against the
batch, the ratio broadcasts fresh against buffered logprobs, the advantage
broadcasts returns against state values, the surrogates broadcast ratios
against advantages, `MseLoss` broadcasts state values against returns, and
the loss sum broadcasts the surrogate against the entropy. -/
def shapesOk (nS nA nL nR : Nat) : Bool :=
  (do
    let lLP ← bcast nA nS
    let lRat ← bcast lLP nL
    let lAdv ← bcast nR nS
    let lSur ← bcast lRat lAdv
    let _ ← bcast nS nR
    let _ ← bcast lSur nS
    pure ()).isSome

/-- The K-epoch optimization loop (lines 147-170).  Each iteration first hits
the forward-pass shape checks (`ok`), then performs one abstract gradient
step `step` (`zero_grad`; `backward`; `optimizer.step()`, which autograd puts
beyond a shallow embedding; `none` is a runtime failure inside the step).
Returns the number of optimizer steps performed, the resulting live model,
and whether the loop ran to completion. -/
def runEpochs (ok : Bool) (step : ActorCritic → Option ActorCritic) :
    Nat → ActorCritic → Nat × ActorCritic × Bool
  | 0, p => (0, p, true)
  | Nat.succ k, p =>
    if ok then
      match step p with
      | some p2 =>
        let r := runEpochs ok step k p2
        (r.1 + 1, r.2.1, r.2.2)
      | none => (0, p, false)
    else (0, p, false)

/-- `PPO.update` (lines 124-176), in source order: compute the discounted
returns, normalize them, stack the buffered states/actions/logprobs
(`torch.stack` raises on an empty list: `Except.error` with the engine
untouched), run the K-epoch loop, and on completion hard-copy the live model
into `policy_old` and clear the buffer.  A failure inside the loop leaves the
partially stepped live model and step counter but neither synchronizes
`policy_old` nor clears the buffer. -/
def PPO.update (e : PPO) (M : MathOps) (step : ActorCritic → Option ActorCritic) :
    Except PPO PPO :=
  let rewardsN := normalizeRewards M (computeReturns e.gamma e.buffer.rewards e.buffer.is_terminals)
  if e.buffer.states.isEmpty then Except.error e
  else if e.buffer.actions.isEmpty then Except.error e
  else if e.buffer.logprobs.isEmpty then Except.error e
  else
    let ok := shapesOk e.buffer.states.length e.buffer.actions.length
      e.buffer.logprobs.length rewardsN.length
    let r := runEpochs ok step e.K_epochs e.policy
    if r.2.2 then
      Except.ok { e with policy := r.2.1, policy_old := r.2.1,
                         optSteps := e.optSteps + r.1, buffer := e.buffer.clear }
    else
      Except.error { e with policy := r.2.1, optSteps := e.optSteps + r.1 }

/-- `PPO.save` (lines 178-179): persist exactly `policy_old.state_dict()`.
The checkpoint blob is the behavior model's parameter set. -/
def PPO.save (e : PPO) : ActorCritic :=
  e.policy_old

/-- `PPO.load` (lines 181-185): load the checkpoint into `policy_old` and
also into `policy`. -/
def PPO.load (e : PPO) (ckpt : ActorCritic) : PPO :=
  { e with policy_old := ckpt, policy := ckpt }

/-- torch `clamp(x, lo, hi)`. -/
def clampQ (x lo hi : ℚ) : ℚ :=
  min (max x lo) hi

/-- Fresh per-sample log-probabilities of the first iteration of the K-epoch
loop: `self.policy.evaluate(old_states, old_actions)` applied sample-wise
(the batched network is a per-sample mapping). -/
def freshLogprobs (M : MathOps) (ac : ActorCritic) (states : List Tensor)
    (actions : List Nat) : List ℚ :=
  List.zipWith (fun s a => (ac.evaluate M s a).1) states actions

/-- Per-sample state values of the first loop iteration (after
`torch.squeeze`). -/
def stateValuesOf (ac : ActorCritic) (states : List Tensor) : List ℚ :=
  states.map (fun s => criticValue ac s)

/-- Importance-sampling ratios `torch.exp(logprobs - old_logprobs.detach())`
(line 156). -/
def ratiosOf (e : ℚ → ℚ) (lps olps : List ℚ) : List ℚ :=
  List.zipWith (fun a b => e (a - b)) lps olps

/-- Advantages of the first loop iteration (line 159):
normalized returns minus detached state values. -/
def firstIterAdv (M : MathOps) (e : PPO) : List ℚ :=
  List.zipWith (fun x y => x - y)
    (normalizeRewards M (computeReturns e.gamma e.buffer.rewards e.buffer.is_terminals))
    (stateValuesOf e.policy e.buffer.states)

/-- Ratios of the first loop iteration (line 156), with `old_logprobs` read
from the buffer and fresh log-probabilities from the live model. -/
def firstIterRatios (M : MathOps) (e : PPO) : List ℚ :=
  ratiosOf M.exp (freshLogprobs M e.policy e.buffer.states e.buffer.actions)
    e.buffer.logprobs

/-- `surr1 = ratios * advantages` of the first loop iteration (line 160). -/
def firstIterSurr1 (M : MathOps) (e : PPO) : List ℚ :=
  List.zipWith (fun a b => a * b) (firstIterRatios M e) (firstIterAdv M e)

/-- `surr2 = clamp(ratios, 1-eps_clip, 1+eps_clip) * advantages` of the first
loop iteration (line 161). -/
def firstIterSurr2 (M : MathOps) (e : PPO) : List ℚ :=
  List.zipWith (fun a b => a * b)
    ((firstIterRatios M e).map (fun x => clampQ x (1 - e.eps_clip) (1 + e.eps_clip)))
    (firstIterAdv M e)

/-! ### Lemmas about the discounted-return computation -/

theorem returnsLoop_append (gamma : ℚ) (xs ys : List (ℚ × Bool)) (g : ℚ) (acc : List ℚ) :
    returnsLoop gamma (xs ++ ys) g acc
      = returnsLoop gamma ys (finalG gamma xs g) (returnsLoop gamma xs g acc) := by
  induction xs generalizing g acc with
  | nil => rfl
  | cons x rest ih =>
    obtain ⟨r, d⟩ := x
    simp only [List.cons_append, returnsLoop, finalG]
    exact ih _ _

theorem finalG_append (gamma : ℚ) (xs ys : List (ℚ × Bool)) (g : ℚ) :
    finalG gamma (xs ++ ys) g = finalG gamma ys (finalG gamma xs g) := by
  induction xs generalizing g with
  | nil => rfl
  | cons x rest ih =>
    obtain ⟨r, d⟩ := x
    simp only [List.cons_append, finalG]
    exact ih _

theorem returnsLoop_length (gamma : ℚ) (l : List (ℚ × Bool)) (g : ℚ) (acc : List ℚ) :
    (returnsLoop gamma l g acc).length = l.length + acc.length := by
  induction l generalizing g acc with
  | nil => simp [returnsLoop]
  | cons x rest ih =>
    obtain ⟨r, d⟩ := x
    simp only [returnsLoop, ih, List.length_cons]
    omega

theorem computeReturnsSpec_length (gamma : ℚ) :
    ∀ (rs : List ℚ) (ts : List Bool), rs.length = ts.length →
      (computeReturnsSpec gamma rs ts).length = rs.length
  | [], [], _ => rfl
  | [], _ :: _, h => by simp at h
  | _ :: _, [], h => by simp at h
  | r :: rs, d :: ts, h => by
    simp only [computeReturnsSpec, List.length_cons]
    rw [computeReturnsSpec_length gamma rs ts (by simpa using h)]

theorem zip_reverse_eq (rs : List ℚ) (ts : List Bool) (h : rs.length = ts.length) :
    rs.reverse.zip ts.reverse = (rs.zip ts).reverse := by
  induction rs generalizing ts with
  | nil =>
    have : ts = [] := by simpa using h.symm
    simp [this]
  | cons r rs ih =>
    cases ts with
    | nil => simp at h
    | cons d ts =>
      have hlen : rs.length = ts.length := by simpa using h
      simp only [List.reverse_cons, List.zip_cons_cons]
      rw [List.zip_append (by simp [hlen]), ih ts hlen]
      rfl

theorem finalG_headD (gamma : ℚ) :
    ∀ (rs : List ℚ) (ts : List Bool), rs.length = ts.length →
      finalG gamma ((rs.zip ts).reverse) 0 = (computeReturnsSpec gamma rs ts).headD 0
  | [], [], _ => rfl
  | [], _ :: _, h => by simp at h
  | _ :: _, [], h => by simp at h
  | r :: rs, d :: ts, h => by
    have hlen : rs.length = ts.length := by simpa using h
    simp only [List.zip_cons_cons, List.reverse_cons]
    rw [finalG_append]
    simp only [finalG, computeReturnsSpec, List.headD_cons]
    rw [finalG_headD gamma rs ts hlen]

theorem computeReturns_eq_spec (gamma : ℚ) :
    ∀ (rs : List ℚ) (ts : List Bool), rs.length = ts.length →
      computeReturns gamma rs ts = computeReturnsSpec gamma rs ts := by
  have key : ∀ (rs : List ℚ) (ts : List Bool), rs.length = ts.length →
      returnsLoop gamma ((rs.zip ts).reverse) 0 [] = computeReturnsSpec gamma rs ts := by
    intro rs
    induction rs with
    | nil =>
      intro ts h
      have : ts = [] := by simpa using h.symm
      simp [this, returnsLoop, computeReturnsSpec]
    | cons r rs ih =>
      intro ts h
      cases ts with
      | nil => simp at h
      | cons d ts =>
        have hlen : rs.length = ts.length := by simpa using h
        simp only [List.zip_cons_cons, List.reverse_cons]
        rw [returnsLoop_append, ih ts hlen, finalG_headD gamma rs ts hlen]
        simp only [returnsLoop, computeReturnsSpec]
  intro rs ts h
  rw [computeReturns, zip_reverse_eq rs ts h]
  exact key rs ts h

theorem computeReturns_length (gamma : ℚ) (rs : List ℚ) (ts : List Bool)
    (h : rs.length = ts.length) :
    (computeReturns gamma rs ts).length = rs.length := by
  rw [computeReturns, returnsLoop_length]
  simp [List.length_zip, h]

theorem computeReturnsSpec_nil_right (gamma : ℚ) (rs : List ℚ) :
    computeReturnsSpec gamma rs [] = [] := by
  cases rs <;> rfl

theorem computeReturnsSpec_drop (gamma : ℚ) :
    ∀ (n : Nat) (rs : List ℚ) (ts : List Bool),
      (computeReturnsSpec gamma rs ts).drop n
        = computeReturnsSpec gamma (rs.drop n) (ts.drop n)
  | 0, _, _ => by simp
  | n + 1, [], ts => by simp [computeReturnsSpec]
  | n + 1, r :: rs, [] => by simp [computeReturnsSpec_nil_right]
  | n + 1, r :: rs, d :: ts => by
    simp only [computeReturnsSpec, List.drop_succ_cons]
    exact computeReturnsSpec_drop gamma n rs ts

theorem headD_take (l : List ℚ) (n : Nat) : (l.take (n + 1)).headD 0 = l.headD 0 := by
  cases l <;> rfl

theorem computeReturnsSpec_cons (gamma r : ℚ) (rs : List ℚ) (d : Bool) (ds : List Bool) :
    computeReturnsSpec gamma (r :: rs) (d :: ds)
      = (r + gamma * (if d then 0 else (computeReturnsSpec gamma rs ds).headD 0))
          :: computeReturnsSpec gamma rs ds :=
  rfl

theorem computeReturnsSpec_cut (gamma : ℚ) :
    ∀ (p : List ℚ) (pt : List Bool) (s : List ℚ) (st : List Bool),
      p.length = pt.length → pt.getLast? = some true →
      (computeReturnsSpec gamma (p ++ s) (pt ++ st)).take p.length
        = computeReturnsSpec gamma p pt
  | [], [], _, _, _, hlast => by simp at hlast
  | [], _ :: _, _, _, h, _ => by simp at h
  | _ :: _, [], _, _, h, _ => by simp at h
  | [r], [d], s, st, _, hlast => by
    have hd : d = true := by simpa using hlast
    subst hd
    simp [computeReturnsSpec]
  | r :: r2 :: p, [d], s, st, h, _ => by simp at h
  | [r], d :: d2 :: pt, s, st, h, _ => by simp at h
  | r :: r2 :: p, d :: d2 :: pt, s, st, h, hlast => by
    have hlen : (r2 :: p).length = (d2 :: pt).length := by simpa using h
    have hlast2 : (d2 :: pt).getLast? = some true := by
      rwa [List.getLast?_cons_cons] at hlast
    have ih := computeReturnsSpec_cut gamma (r2 :: p) (d2 :: pt) s st hlen hlast2
    simp only [List.length_cons] at ih
    simp only [List.cons_append] at ih ⊢
    rw [computeReturnsSpec_cons gamma r (r2 :: (p ++ s)) d (d2 :: (pt ++ st)),
      computeReturnsSpec_cons gamma r (r2 :: p) d (d2 :: pt)]
    simp only [List.length_cons, List.take_succ_cons]
    rw [ih]
    have hhead : ((computeReturnsSpec gamma (r2 :: (p ++ s)) (d2 :: (pt ++ st))).headD 0)
        = ((computeReturnsSpec gamma (r2 :: p) (d2 :: pt)).headD 0) := by
      rw [← ih, headD_take]
    rw [hhead]

/-! ### Claim theorems C1 and C2 -/

/-- C1: for every buffer of rewards and terminal flags and every gamma,
`PPO.update`'s return stage (`computeReturns`, the verbatim translation of
the reverse loop with accumulator reset-before-fold) produces exactly the
chronological-order recurrence `computeReturnsSpec`, with the same length as
the buffer; and for rewards `[1, 1, 1]`, terminals `[False, False, True]`,
`gamma = 0.9` the pre-normalization returns are `[2.71, 1.9, 1.0]`. -/
theorem c1_discounted_returns (gamma : ℚ) (rs : List ℚ) (ts : List Bool)
    (h : rs.length = ts.length) :
    computeReturns gamma rs ts = computeReturnsSpec gamma rs ts
    ∧ (computeReturns gamma rs ts).length = rs.length
    ∧ computeReturns (9 / 10) [1, 1, 1] [false, false, true]
        = [271 / 100, 19 / 10, 1] :=
  ⟨computeReturns_eq_spec gamma rs ts h, computeReturns_length gamma rs ts h,
    by norm_num [computeReturns, returnsLoop]⟩

/-- Witness for C1 at the claim's own concrete input. -/
theorem c1_discounted_returns_witness :
    ([(1 : ℚ), 1, 1].length = [false, false, true].length)
    ∧ (computeReturns (9 / 10) [1, 1, 1] [false, false, true]
          = computeReturnsSpec (9 / 10) [1, 1, 1] [false, false, true]
        ∧ (computeReturns (9 / 10) [1, 1, 1] [false, false, true]).length
            = [(1 : ℚ), 1, 1].length
        ∧ computeReturns (9 / 10) [1, 1, 1] [false, false, true]
            = [271 / 100, 19 / 10, 1]) :=
  ⟨by decide, c1_discounted_returns (9 / 10) [1, 1, 1] [false, false, true] (by decide)⟩

/-- C2: with a terminal flag at chronological index `T`, returns at
positions `t ≤ T` depend only on rewards at positions `t ≤ T` (the reset cuts
off everything after the terminal), and returns at positions `t > T` depend
only on rewards at positions `t > T` (reverse accumulation never looks
backward): no return leakage across the episode boundary. -/
theorem c2_no_cross_terminal_leakage (gamma : ℚ) (ts : List Bool)
    (rs1 rs2 : List ℚ) (T : Nat) (h1 : rs1.length = ts.length)
    (h2 : rs2.length = ts.length) (hT : ts.get? T = some true) :
    ((∀ t, t ≤ T → rs1.get? t = rs2.get? t) →
      ∀ t, t ≤ T →
        (computeReturns gamma rs1 ts).get? t = (computeReturns gamma rs2 ts).get? t)
    ∧ ((∀ t, T < t → rs1.get? t = rs2.get? t) →
      ∀ t, T < t →
        (computeReturns gamma rs1 ts).get? t = (computeReturns gamma rs2 ts).get? t) := by
  have hTlen : T < ts.length := by
    by_contra hc
    rw [List.get?_eq_none.mpr (by omega)] at hT
    exact Option.noConfusion hT
  rw [computeReturns_eq_spec gamma rs1 ts h1, computeReturns_eq_spec gamma rs2 ts h2]
  constructor
  · intro hagree t ht
    have hp1len : (rs1.take (T + 1)).length = T + 1 := by
      simp only [List.length_take]
      omega
    have hp2len : (rs2.take (T + 1)).length = T + 1 := by
      simp only [List.length_take]
      omega
    have hptlen : (ts.take (T + 1)).length = T + 1 := by
      simp only [List.length_take]
      omega
    have hlast : (ts.take (T + 1)).getLast? = some true := by
      rw [List.getLast?_eq_get?, hptlen]
      simpa [List.get?_take (Nat.lt_succ_self T)] using hT
    have hcut1 := computeReturnsSpec_cut gamma (rs1.take (T + 1)) (ts.take (T + 1))
      (rs1.drop (T + 1)) (ts.drop (T + 1)) (by rw [hp1len, hptlen]) hlast
    have hcut2 := computeReturnsSpec_cut gamma (rs2.take (T + 1)) (ts.take (T + 1))
      (rs2.drop (T + 1)) (ts.drop (T + 1)) (by rw [hp2len, hptlen]) hlast
    rw [List.take_append_drop, List.take_append_drop, hp1len] at hcut1
    rw [List.take_append_drop, List.take_append_drop, hp2len] at hcut2
    have hpeq : rs1.take (T + 1) = rs2.take (T + 1) := by
      apply List.ext_get?
      intro n
      by_cases hn : n < T + 1
      · rw [List.get?_take hn, List.get?_take hn]
        exact hagree n (by omega)
      · rw [List.get?_eq_none.mpr (by rw [hp1len]; omega),
          List.get?_eq_none.mpr (by rw [hp2len]; omega)]
    calc (computeReturnsSpec gamma rs1 ts).get? t
        = ((computeReturnsSpec gamma rs1 ts).take (T + 1)).get? t := by
          rw [List.get?_take (by omega)]
      _ = ((computeReturnsSpec gamma rs2 ts).take (T + 1)).get? t := by
          rw [hcut1, hcut2, hpeq]
      _ = (computeReturnsSpec gamma rs2 ts).get? t := by
          rw [List.get?_take (by omega)]
  · intro hagree t ht
    have hdeq : rs1.drop t = rs2.drop t := by
      apply List.ext_get?
      intro n
      rw [List.get?_drop, List.get?_drop]
      exact hagree (t + n) (by omega)
    calc (computeReturnsSpec gamma rs1 ts).get? t
        = ((computeReturnsSpec gamma rs1 ts).drop t).get? 0 := by
          simp [List.get?_drop]
      _ = (computeReturnsSpec gamma (rs1.drop t) (ts.drop t)).get? 0 := by
          rw [computeReturnsSpec_drop]
      _ = (computeReturnsSpec gamma (rs2.drop t) (ts.drop t)).get? 0 := by
          rw [hdeq]
      _ = ((computeReturnsSpec gamma rs2 ts).drop t).get? 0 := by
          rw [computeReturnsSpec_drop]
      _ = (computeReturnsSpec gamma rs2 ts).get? t := by
          simp [List.get?_drop]

/-- Witness for C2: terminals `[false, true, false]` with the terminal at
`T = 1`; `[1, 2, 3]` and `[1, 2, 100]` agree up to the terminal, so the
return at position 0 agrees; `[5, 6, 3]` and `[1, 2, 3]` agree after the
terminal, so the return at position 2 agrees. -/
theorem c2_no_cross_terminal_leakage_witness :
    ((computeReturns (1 / 2) [1, 2, 3] [false, true, false]).get? 0
      = (computeReturns (1 / 2) [1, 2, 100] [false, true, false]).get? 0)
    ∧ ((computeReturns (1 / 2) [5, 6, 3] [false, true, false]).get? 2
      = (computeReturns (1 / 2) [1, 2, 3] [false, true, false]).get? 2) :=
  ⟨(c2_no_cross_terminal_leakage (1 / 2) [false, true, false] [1, 2, 3] [1, 2, 100] 1
      (by decide) (by decide) (by decide)).1
      (by
        intro t ht
        rcases t with _ | _ | t2
        · rfl
        · rfl
        · exact absurd ht (by omega)) 0 (by decide),
    (c2_no_cross_terminal_leakage (1 / 2) [false, true, false] [5, 6, 3] [1, 2, 3] 1
      (by decide) (by decide) (by decide)).2
      (by
        intro t ht
        rcases t with _ | _ | t2
        · exact absurd ht (by omega)
        · exact absurd ht (by omega)
        · rfl) 2 (by decide)⟩

/-! ### Shared concrete instances for witnesses and counterexamples -/

/-- A concrete actor-critic with trivial feature stacks and a single-class
actor head, used to instantiate theorems on concrete engines. -/
def acTriv : ActorCritic :=
  { actorFeat := fun _ => []
    actorHead := [([], 0)]
    criticFeat := fun _ => []
    criticHead := ([], 0) }

/-- A concrete math-ops bundle for instantiating theorems; it satisfies the
assumed properties of the real functions (e.g. `exp 0 = 1`). -/
def mTriv : MathOps :=
  ⟨fun _ => 1, fun _ => 0, fun _ => 0⟩

/-- A concrete one-element observation of shape `[1, 1, 1, 1]`. -/
def tens0 : Tensor :=
  ⟨[1, 1, 1, 1], [0]⟩

/-- An aligned singleton buffer (all five sequences of length one). -/
def bufAligned : RolloutBuffer :=
  ⟨[0], [tens0], [0], [1], [true]⟩

/-- A length-mismatched buffer: three rewards but two terminal flags, with
states/actions/logprobs of length two. -/
def bufMis : RolloutBuffer :=
  ⟨[0, 0], [tens0, tens0], [0, 0], [1, 2, 3], [false, false]⟩

/-- Engine over the aligned singleton buffer; `gamma = eps_clip = 1`,
`K_epochs = 1`. -/
def ppoAligned : PPO :=
  ⟨1, 1, 1, bufAligned, acTriv, acTriv, 0⟩

/-- Engine over the mismatched buffer. -/
def ppoMis : PPO :=
  ⟨1, 1, 1, bufMis, acTriv, acTriv, 0⟩

/-- Engine over an empty buffer. -/
def ppoEmptyBuf : PPO :=
  ⟨1, 1, 1, RolloutBuffer.init, acTriv, acTriv, 0⟩

/-- The engine state produced by a successful `update` of `ppoAligned`. -/
def ppoAlignedOk : PPO :=
  ⟨1, 1, 1, RolloutBuffer.init, acTriv, acTriv, 1⟩

/-- The engine state produced by a successful `update` of `ppoMis`. -/
def ppoMisOk : PPO :=
  ⟨1, 1, 1, RolloutBuffer.init, acTriv, acTriv, 1⟩

/-! ### Invariants of `PPO.update` -/

theorem runEpochs_complete_count (ok : Bool) (step : ActorCritic → Option ActorCritic) :
    ∀ (k : Nat) (p : ActorCritic), (runEpochs ok step k p).2.2 = true →
      (runEpochs ok step k p).1 = k
  | 0, _, _ => rfl
  | Nat.succ k, p, h => by
    unfold runEpochs at h ⊢
    by_cases hok : ok = true
    · rw [if_pos hok] at h ⊢
      cases hstep : step p with
      | some p2 =>
        rw [hstep] at h
        dsimp only at h ⊢
        rw [runEpochs_complete_count ok step k p2 h]
      | none =>
        rw [hstep] at h
        dsimp only at h
        exact absurd h (by decide)
    · rw [if_neg hok] at h
      dsimp only at h
      exact absurd h (by decide)

theorem update_ok_inv (M : MathOps) (step : ActorCritic → Option ActorCritic)
    (e e2 : PPO) (h : PPO.update e M step = Except.ok e2) :
    e2.policy_old = e2.policy ∧ e2.buffer = RolloutBuffer.init
      ∧ e2.optSteps = e.optSteps + e.K_epochs := by
  unfold PPO.update at h
  split at h
  · exact absurd h (by simp)
  · split at h
    · exact absurd h (by simp)
    · split at h
      · exact absurd h (by simp)
      · dsimp only at h
        split at h
        case isTrue hdone =>
          rw [Except.ok.injEq] at h
          subst h
          refine ⟨rfl, rfl, ?_⟩
          simp only
          rw [runEpochs_complete_count _ _ _ _ hdone]
        case isFalse => exact absurd h (by simp)

theorem update_error_inv (M : MathOps) (step : ActorCritic → Option ActorCritic)
    (e e2 : PPO) (h : PPO.update e M step = Except.error e2) :
    e2.buffer = e.buffer ∧ e2.policy_old = e.policy_old := by
  unfold PPO.update at h
  split at h
  · rw [Except.error.injEq] at h
    subst h
    exact ⟨rfl, rfl⟩
  · split at h
    · rw [Except.error.injEq] at h
      subst h
      exact ⟨rfl, rfl⟩
    · split at h
      · rw [Except.error.injEq] at h
        subst h
        exact ⟨rfl, rfl⟩
      · dsimp only at h
        split at h
        · exact absurd h (by simp)
        · rw [Except.error.injEq] at h
          subst h
          exact ⟨rfl, rfl⟩

/-! ### Claim theorems C3 to C6 -/

/-- C3 counterexample: `ppoMis` has three rewards but two terminal flags
(and states/actions/logprobs of length two), yet `PPO.update` succeeds:
Python's `zip` silently truncates the reward/terminal walk to two entries, so
the returns tensor has length two, every downstream shape lines up, and the
call completes without any error — refuting the claim that a
length-mismatched buffer always fails immediately and visibly. -/
theorem c3_mismatch_counterexample :
    PPO.update ppoMis mTriv Option.some = Except.ok ppoMisOk
    ∧ ppoMis.buffer.rewards.length = 3
    ∧ ppoMis.buffer.is_terminals.length = 2
    ∧ ppoMis.buffer.states.length = 2
    ∧ (computeReturns ppoMis.gamma ppoMis.buffer.rewards ppoMis.buffer.is_terminals).length
        = 2 :=
  ⟨rfl, rfl, rfl, rfl, rfl⟩

/-- C3 amended: `update()` on a buffer with an empty states list (in
particular an empty buffer) raises immediately at `torch.stack` with the
engine untouched; but a length-mismatched buffer does not always fail — when
`min(len(rewards), len(is_terminals))` equals the common length of
states/actions/logprobs, `update` proceeds silently on reward/terminal data
truncated by `zip`. -/
theorem c3_empty_fails_mismatch_may_not (M : MathOps)
    (step : ActorCritic → Option ActorCritic) (e : PPO)
    (h : e.buffer.states = []) :
    PPO.update e M step = Except.error e
    ∧ PPO.update ppoMis mTriv Option.some = Except.ok ppoMisOk := by
  refine ⟨?_, rfl⟩
  unfold PPO.update
  rw [h]
  rfl

/-- Witness for the amended C3 at the empty-buffer engine. -/
theorem c3_empty_fails_mismatch_may_not_witness :
    PPO.update ppoEmptyBuf mTriv Option.some = Except.error ppoEmptyBuf
    ∧ PPO.update ppoMis mTriv Option.some = Except.ok ppoMisOk :=
  c3_empty_fails_mismatch_may_not mTriv Option.some ppoEmptyBuf rfl

/-- C4: at every synchronization point — engine construction, completion of
any `update`, and completion of `load` — the behavior model `policy_old`
equals the live model `policy` exactly (the sync is a full hard copy of the
whole parameter value, never interpolated or partially merged). -/
theorem c4_policy_old_hard_copy :
    (∀ b g ec k p q, (mkPPO b g ec k p q).policy_old = (mkPPO b g ec k p q).policy)
    ∧ (∀ (M : MathOps) (step : ActorCritic → Option ActorCritic) (e e2 : PPO),
        PPO.update e M step = Except.ok e2 → e2.policy_old = e2.policy)
    ∧ (∀ (e : PPO) (c : ActorCritic),
        (PPO.load e c).policy_old = (PPO.load e c).policy) :=
  ⟨fun _ _ _ _ _ _ => rfl,
    fun M step e e2 h => (update_ok_inv M step e e2 h).1,
    fun _ _ => rfl⟩

/-- Witness for C4 at a successful concrete update. -/
theorem c4_policy_old_hard_copy_witness :
    ppoAlignedOk.policy_old = ppoAlignedOk.policy :=
  c4_policy_old_hard_copy.2.1 mTriv Option.some ppoAligned ppoAlignedOk rfl

/-- C5 counterexample: `PPO.__init__` stores the caller-supplied buffer
unchanged, so constructing an engine with a nonempty buffer yields an engine
whose buffer sequences do not have length zero — refuting the claim that the
buffer is empty at the moment the engine is constructed. -/
theorem c5_nonempty_at_construction_counterexample :
    (mkPPO bufAligned 1 1 1 acTriv acTriv).buffer.actions.length ≠ 0 := by
  decide

/-- C5 amended: a freshly constructed `RolloutBuffer` is empty (all five
parallel sequences have length zero), and the `PPO` constructor aliases the
caller-supplied buffer unchanged — so the engine's buffer at construction is
empty exactly when the supplied buffer is (in particular, empty when the
driver passes a fresh `RolloutBuffer`). -/
theorem c5_buffer_at_construction :
    (RolloutBuffer.init.actions.length = 0
      ∧ RolloutBuffer.init.states.length = 0
      ∧ RolloutBuffer.init.logprobs.length = 0
      ∧ RolloutBuffer.init.rewards.length = 0
      ∧ RolloutBuffer.init.is_terminals.length = 0)
    ∧ ∀ b g ec k p q, (mkPPO b g ec k p q).buffer = b :=
  ⟨⟨rfl, rfl, rfl, rfl, rfl⟩, fun _ _ _ _ _ _ => rfl⟩

/-- C6: a successful `update` performs exactly `K_epochs` optimizer steps and
then, after the loop completes, synchronizes the behavior model and
unconditionally empties the buffer; a failed `update` has cleared nothing of
the buffer and synchronized nothing of the behavior model. -/
theorem c6_update_step_count_and_atomicity (M : MathOps)
    (step : ActorCritic → Option ActorCritic) (e : PPO) :
    (∀ e2, PPO.update e M step = Except.ok e2 →
        e2.optSteps = e.optSteps + e.K_epochs
        ∧ e2.policy_old = e2.policy
        ∧ e2.buffer = RolloutBuffer.init)
    ∧ (∀ e2, PPO.update e M step = Except.error e2 →
        e2.buffer = e.buffer ∧ e2.policy_old = e.policy_old) :=
  ⟨fun e2 h =>
    ⟨(update_ok_inv M step e e2 h).2.2, (update_ok_inv M step e e2 h).1,
      (update_ok_inv M step e e2 h).2.1⟩,
    fun e2 h => update_error_inv M step e e2 h⟩

/-- Witness for C6: a successful concrete update performing exactly one
optimizer step (`K_epochs = 1`), and a failing one (empty buffer) that left
buffer and behavior model untouched. -/
theorem c6_update_step_count_and_atomicity_witness :
    (ppoAlignedOk.optSteps = ppoAligned.optSteps + ppoAligned.K_epochs
      ∧ ppoAlignedOk.policy_old = ppoAlignedOk.policy
      ∧ ppoAlignedOk.buffer = RolloutBuffer.init)
    ∧ (ppoEmptyBuf.buffer = ppoEmptyBuf.buffer
      ∧ ppoEmptyBuf.policy_old = ppoEmptyBuf.policy_old) :=
  ⟨(c6_update_step_count_and_atomicity mTriv Option.some ppoAligned).1 ppoAlignedOk rfl,
    (c6_update_step_count_and_atomicity mTriv Option.some ppoEmptyBuf).2 ppoEmptyBuf rfl⟩

/-! ### Claim theorems C7 to C10 -/

/-- C7: `select_action` reshapes a `[frames, height, width, channels]`
observation into `[1, frames*channels, height, width]` (same flat data),
queries only the behavior model `policy_old` through `act`, and returns the
(action, log-probability) pair with the engine state unchanged — no mutation
of the buffer, either model, or the optimizer — and with the returned scalar
detached from gradient tracking. -/
theorem c7_select_action_pure (M : MathOps) (e : PPO) (st : Tensor) (u : ℚ)
    (f h w c : Nat) (hs : st.shape = [f, h, w, c])
    (hd : st.data.length = f * h * w * c) :
    PPO.select_action e M st u
      = some (((e.policy_old.act M false ⟨[1, f * c, h, w], st.data⟩ u).1,
          (e.policy_old.act M false ⟨[1, f * c, h, w], st.data⟩ u).2.detach), e)
    ∧ (∀ res e2, PPO.select_action e M st u = some (res, e2) →
        e2 = e ∧ res.2.requires_grad = false) := by
  obtain ⟨sh, da⟩ := st
  dsimp only at hs hd
  subst hs
  have hprod : ([1, f * c, h, w] : List Nat).prod = da.length := by
    simp only [List.prod_cons, List.prod_nil, hd]
    ring
  have h1 : PPO.select_action e M ⟨[f, h, w, c], da⟩ u
      = some (((e.policy_old.act M false ⟨[1, f * c, h, w], da⟩ u).1,
          (e.policy_old.act M false ⟨[1, f * c, h, w], da⟩ u).2.detach), e) := by
    simp only [PPO.select_action, Tensor.reshape, if_pos hprod]
  refine ⟨h1, ?_⟩
  intro res e2 hsome
  rw [h1, Option.some.injEq, Prod.mk.injEq] at hsome
  obtain ⟨hres, he2⟩ := hsome
  refine ⟨he2.symm, ?_⟩
  rw [← hres]
  rfl

/-- Witness for C7 at the concrete observation `tens0` of shape
`[1, 1, 1, 1]`. -/
theorem c7_select_action_pure_witness :
    PPO.select_action ppoAligned mTriv tens0 (1 / 2)
      = some (((ppoAligned.policy_old.act mTriv false ⟨[1, 1 * 1, 1, 1], tens0.data⟩ (1 / 2)).1,
          (ppoAligned.policy_old.act mTriv false ⟨[1, 1 * 1, 1, 1], tens0.data⟩ (1 / 2)).2.detach),
        ppoAligned) :=
  (c7_select_action_pure mTriv ppoAligned tens0 (1 / 2) 1 1 1 1 rfl rfl).1

/-! ### Lemmas for C8 -/

theorem zipWith_exp_sub_self (e : ℚ → ℚ) (l : List ℚ) :
    List.zipWith (fun a b => e (a - b)) l l = List.replicate l.length (e 0) := by
  induction l with
  | nil => rfl
  | cons x xs ih =>
    simp only [List.zipWith_cons_cons, List.length_cons, List.replicate_succ, sub_self, ih]

theorem zipWith_mul_replicate_one (l : List ℚ) :
    List.zipWith (fun a b => a * b) (List.replicate l.length 1) l = l := by
  induction l with
  | nil => rfl
  | cons x xs ih =>
    simp only [List.length_cons, List.replicate_succ, List.zipWith_cons_cons, one_mul, ih]

theorem clampQ_one (eps : ℚ) (h : 0 ≤ eps) : clampQ 1 (1 - eps) (1 + eps) = 1 := by
  unfold clampQ
  rw [max_eq_left (by linarith), min_eq_left (by linarith)]

theorem normalizeRewards_length (M : MathOps) (xs : List ℚ) :
    (normalizeRewards M xs).length = xs.length := by
  simp [normalizeRewards]

theorem freshLogprobs_length (M : MathOps) (ac : ActorCritic) (states : List Tensor)
    (actions : List Nat) :
    (freshLogprobs M ac states actions).length = min states.length actions.length := by
  simp [freshLogprobs]

/-- C8: if `update` is invoked while live and behavior models agree exactly
(immediately after a synchronization, before any parameter drift) and the
buffered log-probabilities were recorded by the behavior model on the
buffered states/actions, then in the first iteration of the K-epoch loop
every importance-sampling ratio `exp(logprobs - old_logprobs)` equals 1
exactly, and consequently `surr1 = surr2 = advantages` element-wise. -/
theorem c8_ratio_one_at_sync (M : MathOps) (e : PPO)
    (hsync : e.policy = e.policy_old)
    (hbuf : e.buffer.logprobs
      = freshLogprobs M e.policy_old e.buffer.states e.buffer.actions)
    (hexp : M.exp 0 = 1) (heps : 0 ≤ e.eps_clip)
    (hA : e.buffer.actions.length = e.buffer.states.length)
    (hR : e.buffer.rewards.length = e.buffer.states.length)
    (hT : e.buffer.is_terminals.length = e.buffer.states.length) :
    firstIterRatios M e = List.replicate e.buffer.states.length 1
    ∧ firstIterSurr1 M e = firstIterAdv M e
    ∧ firstIterSurr2 M e = firstIterAdv M e := by
  have hratios : firstIterRatios M e = List.replicate e.buffer.states.length 1 := by
    unfold firstIterRatios
    rw [hbuf, ← hsync]
    unfold ratiosOf
    rw [zipWith_exp_sub_self M.exp, hexp, freshLogprobs_length, hA, Nat.min_self]
  have hadvlen : (firstIterAdv M e).length = e.buffer.states.length := by
    unfold firstIterAdv
    rw [List.length_zipWith, normalizeRewards_length,
      computeReturns_length _ _ _ (hR.trans hT.symm)]
    simp [stateValuesOf, hR]
  have hs1 : firstIterSurr1 M e = firstIterAdv M e := by
    unfold firstIterSurr1
    rw [hratios, ← hadvlen, zipWith_mul_replicate_one]
  have hclamped : (List.replicate e.buffer.states.length (1 : ℚ)).map
      (fun x => clampQ x (1 - e.eps_clip) (1 + e.eps_clip))
        = List.replicate e.buffer.states.length 1 := by
    rw [List.map_replicate, clampQ_one e.eps_clip heps]
  have hs2 : firstIterSurr2 M e = firstIterAdv M e := by
    unfold firstIterSurr2
    rw [hratios, hclamped, ← hadvlen, zipWith_mul_replicate_one]
  exact ⟨hratios, hs1, hs2⟩

/-- Witness for C8 at `ppoAligned` (live and behavior model are the same
`acTriv`, buffer log-probabilities recorded by `acTriv` itself). -/
theorem c8_ratio_one_at_sync_witness :
    firstIterRatios mTriv ppoAligned = List.replicate 1 1
    ∧ firstIterSurr1 mTriv ppoAligned = firstIterAdv mTriv ppoAligned
    ∧ firstIterSurr2 mTriv ppoAligned = firstIterAdv mTriv ppoAligned :=
  c8_ratio_one_at_sync mTriv ppoAligned rfl rfl rfl (by decide) rfl rfl rfl

/-- C9: `save` persists exactly the behavior model's parameter set, and
`load` restores it into the behavior model and force-synchronizes it into the
live model; hence `save` from one engine followed by `load` into any other
(e.g. freshly constructed) engine reproduces the original behavior model in
both slots, and the action-probability outputs of both models on every fixed
state coincide with those of the saved behavior model. -/
theorem c9_save_load_roundtrip (M : MathOps) (e1 e2 : PPO) :
    PPO.save e1 = e1.policy_old
    ∧ (PPO.load e2 (PPO.save e1)).policy_old = e1.policy_old
    ∧ (PPO.load e2 (PPO.save e1)).policy = e1.policy_old
    ∧ ∀ st : Tensor,
        actorProbs M ((PPO.load e2 (PPO.save e1)).policy) st
            = actorProbs M e1.policy_old st
        ∧ actorProbs M ((PPO.load e2 (PPO.save e1)).policy_old) st
            = actorProbs M e1.policy_old st :=
  ⟨rfl, rfl, rfl, fun _ => ⟨rfl, rfl⟩⟩

/-! ### Lemmas for C10 -/

theorem sampleGo_lt : ∀ (l : List ℚ) (u : ℚ), l ≠ [] →
    Categorical.sampleGo l u < l.length
  | [], _, hne => absurd rfl hne
  | [_], _, _ => by simp [Categorical.sampleGo]
  | p :: q :: rest, u, _ => by
    unfold Categorical.sampleGo
    split
    · simp
    · have ih := sampleGo_lt (q :: rest) (u - p) (by simp)
      simp only [List.length_cons] at ih ⊢
      omega

theorem actorProbs_length (M : MathOps) (ac : ActorCritic) (st : Tensor) :
    (actorProbs M ac st).length = ac.actorHead.length := by
  simp [actorProbs, softmaxWith, linearRows]

theorem mkActorCritic_head_length (sd ad : Nat) (aF cF : Tensor → List ℚ)
    (aHead : Nat → List ℚ × ℚ) (cHead : List ℚ × ℚ) :
    (mkActorCritic sd ad aF cF aHead cHead).actorHead.length = ad := by
  simp [mkActorCritic]

/-- C10: for every input state and every draw, the action returned by
`ActorCritic.act` on a model built by the constructor with `action_dim`
output classes is an index in `[0, action_dim)`: it is sampled from the
categorical distribution over the actor head's `action_dim` softmax
probabilities. -/
theorem c10_action_in_range (M : MathOps) (sd ad : Nat)
    (aF cF : Tensor → List ℚ) (aHead : Nat → List ℚ × ℚ) (cHead : List ℚ × ℚ)
    (g : Bool) (st : Tensor) (u : ℚ) (had : 0 < ad) :
    ((mkActorCritic sd ad aF cF aHead cHead).act M g st u).1 < ad := by
  have hlen : (actorProbs M (mkActorCritic sd ad aF cF aHead cHead) st).length = ad := by
    rw [actorProbs_length, mkActorCritic_head_length]
  have hne : actorProbs M (mkActorCritic sd ad aF cF aHead cHead) st ≠ [] := by
    intro hnil
    rw [hnil] at hlen
    simp only [List.length_nil] at hlen
    omega
  have hlt := sampleGo_lt (actorProbs M (mkActorCritic sd ad aF cF aHead cHead) st) u hne
  rw [hlen] at hlt
  exact hlt

/-- Witness for C10 with a two-action model. -/
theorem c10_action_in_range_witness :
    ((mkActorCritic 1 2 (fun _ => []) (fun _ => []) (fun _ => ([], 0)) ([], 0)).act
        mTriv false tens0 (1 / 2)).1 < 2 :=
  c10_action_in_range mTriv 1 2 (fun _ => []) (fun _ => []) (fun _ => ([], 0)) ([], 0)
    false tens0 (1 / 2) (by decide)
